import Mathlib

/-!
Shallow embedding of the FITS-to-XISF batch converter
(src/fits_to_xisf_batch.py) and verification of its specification.

Paths are modelled as component lists (List String).  External
collaborators (the FITS decoder, the XISF encoder, the filesystem clock,
modification-time query and removal) are modelled as oracle functions
supplied as parameters; everything the script itself computes is
translated directly from the source.
-/

set_option autoImplicit false

namespace FitsToXisf

/-! ### Python string primitives -/

/-- Tests whether the second character list starts with the first. -/
def chPre : List Char → List Char → Bool
  | [], _ => true
  | _ :: _, [] => false
  | a :: as, b :: bs => a = b && chPre as bs

/-- Tests whether the second character list ends with the first. -/
def chSuffix (suf cs : List Char) : Bool :=
  chPre suf.reverse cs.reverse

/-- Tests whether the first character list occurs inside the second. -/
def chSub : List Char → List Char → Bool
  | pat, [] => pat.isEmpty
  | pat, c :: cs => chPre pat (c :: cs) || chSub pat cs

/-- Python substring test: pat in s. -/
def strContains (s pat : String) : Bool := chSub pat.data s.data

/-- Python str.lower, restricted to the per-character lowering we need. -/
def lowerStr (s : String) : String := String.mk (s.data.map Char.toLower)

/-- Python fn.lower().endswith(".fits") from line 89 of the source. -/
def endsWithFits (fn : String) : Bool := chSuffix ".fits".data (lowerStr fn).data

/-- Splits a character list at its last dot: returns (before, after) with
cs = before ++ dot :: after and no dot occurring in after. -/
def findLastDot : List Char → Option (List Char × List Char)
  | [] => none
  | c :: cs =>
    match findLastDot cs with
    | some (b, a) => some (c :: b, a)
    | none => if c = '.' then some ([], cs) else none

/-- Python os.path.splitext stem applied to a separator-free filename:
the extension starts at the last dot, except when every character before
that dot is itself a dot (leading-dot filenames keep their name whole). -/
def stemOf (fn : String) : String :=
  match findLastDot fn.data with
  | none => fn
  | some (b, _) => if b.any (fun c => c ≠ '.') then String.mk b else fn

/-! ### Paths -/

/-- A filesystem path as a list of components. -/
abbrev Path := List String

/-! ### FITS header model (source lines 20, 26-31) -/

/-- A FITS header value as seen by the script before stringification. -/
inductive HVal
  | str (s : String)
  | int (n : Int)
  | bool (b : Bool)
deriving DecidableEq

/-- Python str() applied to a header value. -/
def hvalStr : HVal → String
  | .str s => s
  | .int n => toString n
  | .bool b => if b then "True" else "False"

/-- One header card: key, value and optional comment. -/
structure Card where
  key : String
  val : HVal
  comment : Option String
deriving DecidableEq

/-- Iterating a header yields its keys in card order, duplicates included. -/
def headerKeys (h : List Card) : List String := h.map (fun c => c.key)

/-- The header mapping lookup header[key] for an ordinary (non-commentary)
keyword: astropy returns the value of the first card carrying the key. -/
def headerLookup (h : List Card) (k : String) : Option HVal :=
  (h.find? (fun c => c.key == k)).map (fun c => c.val)

/-- The commentary keywords of the FITS standard; for these the header
mapping returns the collection of all their card values. -/
def isCommentary (k : String) : Bool :=
  k == "COMMENT" || k == "HISTORY" || k == ""

/-- Python str(header[key]): for a commentary keyword, the stringified
values of every card carrying the key, joined by newlines (astropy hands
back all occurrences); for any other keyword, the stringified value of
the first card carrying the key. -/
def headerItemStr (h : List Card) (k : String) : String :=
  if isCommentary k then
    String.intercalate "\n" ((h.filter (fun c => c.key == k)).map (fun c => hvalStr c.val))
  else hvalStr ((headerLookup h k).getD (.str ""))

/-- The header comment lookup (header.comments[key]). -/
def headerComment (h : List Card) (k : String) : Option String :=
  (h.find? (fun c => c.key == k)).bind (fun c => c.comment)

/-! ### Metadata record (source lines 26-32) -/

/-- One value/comment entry of the FITSKeywords record. -/
structure KwEntry where
  value : String
  comment : String
deriving DecidableEq

/-- Python dict assignment d[k] = v: replace an existing binding for k,
otherwise append a new one. -/
def insertKw (m : List (String × List KwEntry)) (k : String) (v : List KwEntry) :
    List (String × List KwEntry) :=
  if m.any (fun p => p.1 == k) then
    m.map (fun p => if p.1 == k then (k, v) else p)
  else m ++ [(k, v)]

/-- The single entry the loop body builds for a key: the stringified
header-mapping value, comment defaulting to the empty string (source
lines 29-31). -/
def entryFor (h : List Card) (k : String) : List KwEntry :=
  [⟨headerItemStr h k, (headerComment h k).getD ""⟩]

/-- The fits_keywords dict built by the loop over header keys
(source lines 27-31). -/
def buildKeywords (h : List Card) : List (String × List KwEntry) :=
  (headerKeys h).foldl (fun m key => insertKw m key (entryFor h key)) []

/-- The image_metadata value (source line 32). -/
structure ImageMetadata where
  fitsKeywords : List (String × List KwEntry)
deriving DecidableEq

/-- Builds image_metadata = +FITSKeywords: fits_keywords+ from a header. -/
def buildMetadata (h : List Card) : ImageMetadata := ⟨buildKeywords h⟩

/-! ### Pixel data (source lines 19, 22-24) -/

/-- A pixel array: its shape and its flattened pixel values. -/
structure Image where
  shape : List Nat
  pixels : List Int
deriving DecidableEq

/-- The 2D-to-3D normalization data[:, :, np.newaxis] (source lines 23-24):
a trailing unit axis is appended when the array is two-dimensional; pixel
values are untouched. -/
def addChannelAxis (img : Image) : Image :=
  if img.shape.length = 2 then ⟨img.shape ++ [1], img.pixels⟩ else img

/-! ### Conversion worker (source lines 15-52) -/

/-- Codec configuration forwarded to the encoder. -/
structure CodecConfig where
  codec : String
  shuffle : Bool
  level : Int
  creatorApp : String
deriving DecidableEq

/-- Result of one XISF.write call by the encoder oracle. -/
inductive WriteResult
  | ok (nbytes : Nat) (codecUsed : String)
  | err (msg : String)
deriving DecidableEq

/-- Result of the FITS read (fits.getdata / fits.getheader). -/
inductive ReadResult
  | ok (img : Image) (hdr : List Card)
  | err (msg : String)
deriving DecidableEq

/-- The value a conversion task produces at the scheduler boundary:
either the pair returned by XISF.write, or the exception the worker let
escape (delivered to the scheduler through the future). -/
inductive ConvertResult
  | ok (nbytes : Nat) (codecUsed : String)
  | raised (msg : String)
deriving DecidableEq

/-- A write attempt observed at the encoder boundary: which metadata was
attached and which pixel data was passed. -/
inductive WEvent
  | attempt (md : Option ImageMetadata) (img : Image)
deriving DecidableEq

/-- The message substring the fallback dispatch inspects (source line 44). -/
def tupleIndexMsg : String := "tuple index out of range"

/-- External collaborators of the worker: the FITS decoder and the XISF
encoder, as oracles over the destination path, the metadata (none for the
no-metadata overload), the pixel data and the codec configuration. -/
structure Extern where
  read : Path → ReadResult
  write : Path → Option ImageMetadata → Image → CodecConfig → WriteResult

/-- The conversion worker convert_fits_to_xisf (source lines 15-52),
instrumented with the list of write attempts it makes.  A read failure or
an unhandled write failure becomes a raised outcome value, which the
future hands to the scheduler. -/
def convert_fits_to_xisf (ext : Extern) (fits_path xisf_path : Path)
    (cc : CodecConfig) : List WEvent × ConvertResult :=
  match ext.read fits_path with
  | .err msg => ([], .raised msg)
  | .ok img hdr =>
    let data := addChannelAxis img
    let md := buildMetadata hdr
    match ext.write xisf_path (some md) data cc with
    | .ok n c => ([.attempt (some md) data], .ok n c)
    | .err msg =>
      if strContains msg tupleIndexMsg then
        match ext.write xisf_path none data cc with
        | .ok n c => ([.attempt (some md) data, .attempt none data], .ok n c)
        | .err m2 => ([.attempt (some md) data, .attempt none data], .raised m2)
      else ([.attempt (some md) data], .raised msg)

/-! ### Tree enumeration (source lines 74-98) -/

/-- The run configuration fields the core loop reads (source lines 64-72). -/
structure Config where
  inputDir : Path
  outputDir : Path
  skipExisting : Bool
  deleteOlderThanDays : Int
deriving DecidableEq

/-- One directory visited by os.walk: its path relative to input_dir
(as components, [] for the top) and its filenames. -/
structure DirEntry where
  rel : Path
  files : List String
deriving DecidableEq

/-- A conversion task: the (src, dst) pair appended to fits_tasks. -/
structure Task where
  src : Path
  dst : Path
deriving DecidableEq

/-- dest_root = os.path.join(output_dir, rel) (source line 84). -/
def destRootOf (cfg : Config) (d : DirEntry) : Path := cfg.outputDir ++ d.rel

/-- src = os.path.join(root, fn) (source line 88). -/
def srcOf (cfg : Config) (d : DirEntry) (fn : String) : Path :=
  cfg.inputDir ++ d.rel ++ [fn]

/-- dst = os.path.splitext(os.path.join(dest_root, fn))[0] + ".xisf"
(source line 90). -/
def dstOf (cfg : Config) (d : DirEntry) (fn : String) : Path :=
  destRootOf cfg d ++ [stemOf fn ++ ".xisf"]

/-- Observable actions of the enumeration loop. -/
inductive EnumEvent
  | mkdir (p : Path)
  | skip (src : Path)
  | enqueue (src dst : Path)
  | copy (src dst : Path)
deriving DecidableEq

/-- The body of the inner loop over files (source lines 87-98): ex is the
os.path.exists oracle over destination paths. -/
def stepFile (cfg : Config) (ex : Path → Bool) (d : DirEntry)
    (acc : List EnumEvent × List Task) (fn : String) : List EnumEvent × List Task :=
  if endsWithFits fn then
    let src := srcOf cfg d fn
    let dst := dstOf cfg d fn
    if ex dst && cfg.skipExisting then (acc.1 ++ [.skip src], acc.2)
    else (acc.1 ++ [.enqueue src dst], acc.2 ++ [⟨src, dst⟩])
  else (acc.1 ++ [.copy (srcOf cfg d fn) (destRootOf cfg d ++ [fn])], acc.2)

/-- The body of the outer loop over walked directories (source lines 82-98):
the mirrored directory is created, then each file is classified. -/
def stepDir (cfg : Config) (ex : Path → Bool)
    (acc : List EnumEvent × List Task) (d : DirEntry) : List EnumEvent × List Task :=
  d.files.foldl (stepFile cfg ex d) (acc.1 ++ [.mkdir (destRootOf cfg d)], acc.2)

/-- The whole enumeration phase: events performed and fits_tasks built. -/
def enumeratePhase (cfg : Config) (ex : Path → Bool) (walk : List DirEntry) :
    List EnumEvent × List Task :=
  walk.foldl (stepDir cfg ex) ([], [])

/-! ### Scheduler and retirement policy (source lines 105-142) -/

/-- Decision-time filesystem oracles of the retirement policy: the clock
(time.time()), the modification-time query (none models an OSError) and
whether os.remove succeeds. -/
structure RetireEnv where
  now : ℚ
  getmtime : Path → Option ℚ
  removeOk : Path → Bool

/-- Observable actions of the per-outcome handler in main's result loop. -/
inductive SchedEvent
  | success (src dst : Path) (nbytes : Nat) (codecUsed : String)
  | failure (src : Path) (msg : String)
  | removeAttempt (src : Path)
  | deleted (src : Path)
  | deleteWarn (src : Path)
  | ageWarn (src : Path)
  | tooRecent (src : Path)
deriving DecidableEq

/-- The body of the for fut in as_completed(futures) loop for one task
(source lines 109-142): report the outcome, and on success run the
retirement policy for delete_older_than_days. -/
def handleOutcome (env : RetireEnv) (days : Int) (t : Task) (r : ConvertResult) :
    List SchedEvent :=
  match r with
  | .raised msg => [.failure t.src msg]
  | .ok n c =>
    SchedEvent.success t.src t.dst n c ::
      (if days = -1 then []
       else
        let dec : Bool × List SchedEvent :=
          if days = 0 then (true, [])
          else
            match env.getmtime t.src with
            | some mt => (decide ((env.now - mt) / (24 * 3600) ≥ (days : ℚ)), [])
            | none => (false, [.ageWarn t.src])
        dec.2 ++
          (if dec.1 then
            SchedEvent.removeAttempt t.src ::
              (if env.removeOk t.src then [.deleted t.src] else [.deleteWarn t.src])
          else if days > 0 then [.tooRecent t.src] else []))

/-- The result loop over completed futures, in completion order. -/
def runSched (env : RetireEnv) (days : Int) :
    List (Task × ConvertResult) → List SchedEvent
  | [] => []
  | (t, r) :: rest => handleOutcome env days t r ++ runSched env days rest

/-! ### The whole run (main, source lines 57-142) -/

/-- An event of the whole run: an enumeration-phase action or a
scheduler-phase action. -/
inductive RunEvent
  | enumEv (e : EnumEvent)
  | schedEv (e : SchedEvent)
deriving DecidableEq

/-- The trace of one run of main after configuration loading: the
enumeration phase runs first, synchronously; then every task is converted
and its outcome handled, in the completion order given by order. -/
def runPipeline (cfg : Config) (cc : CodecConfig) (ext : Extern)
    (env : RetireEnv) (ex : Path → Bool) (walk : List DirEntry)
    (order : List Task) : List RunEvent :=
  (enumeratePhase cfg ex walk).1.map RunEvent.enumEv ++
    (runSched env cfg.deleteOlderThanDays
      (order.map (fun t => (t, (convert_fits_to_xisf ext t.src t.dst cc).2)))).map
      RunEvent.schedEv

/-! ### Derived views used by the statements -/

/-- The one event the inner loop emits for a file. -/
def fileEvent (cfg : Config) (ex : Path → Bool) (d : DirEntry) (fn : String) :
    EnumEvent :=
  if endsWithFits fn then
    if ex (dstOf cfg d fn) && cfg.skipExisting then .skip (srcOf cfg d fn)
    else .enqueue (srcOf cfg d fn) (dstOf cfg d fn)
  else .copy (srcOf cfg d fn) (destRootOf cfg d ++ [fn])

/-- The task the inner loop enqueues for a file, when it enqueues one. -/
def fileTask (cfg : Config) (ex : Path → Bool) (d : DirEntry) (fn : String) :
    Option Task :=
  if endsWithFits fn && !(ex (dstOf cfg d fn) && cfg.skipExisting) then
    some ⟨srcOf cfg d fn, dstOf cfg d fn⟩
  else none

/-- The events one walked directory contributes. -/
def dirEvents (cfg : Config) (ex : Path → Bool) (d : DirEntry) : List EnumEvent :=
  .mkdir (destRootOf cfg d) :: d.files.map (fileEvent cfg ex d)

/-- The tasks one walked directory contributes. -/
def dirTasks (cfg : Config) (ex : Path → Bool) (d : DirEntry) : List Task :=
  d.files.filterMap (fileTask cfg ex d)

/-- The report line printed for one outcome (success or failure notice). -/
def reportOf (t : Task) : ConvertResult → SchedEvent
  | .ok n c => .success t.src t.dst n c
  | .raised m => .failure t.src m

/-- Whether a scheduler event is a per-task outcome report. -/
def isReport : SchedEvent → Bool
  | .success _ _ _ _ => true
  | .failure _ _ => true
  | _ => false

/-- Projects the scheduler part out of a run event. -/
def schedPart : RunEvent → Option SchedEvent
  | .schedEv e => some e
  | .enumEv _ => none

/-- Whether a run event is a pass-through copy. -/
def isCopyEv : RunEvent → Bool
  | .enumEv (.copy _ _) => true
  | _ => false

/-- Whether a run event belongs to the scheduler phase. -/
def isSchedRunEv : RunEvent → Bool
  | .schedEv _ => true
  | _ => false

/-- Whether an outcome is a success. -/
def isOkRes : ConvertResult → Bool
  | .ok _ _ => true
  | .raised _ => false

/-- The destination-existence oracle after a run: a destination exists if
it already did, or if some task of the run wrote it successfully. -/
def afterRunExists (ex : Path → Bool) (cc : CodecConfig) (ext : Extern)
    (tasks : List Task) : Path → Bool :=
  fun p => ex p || tasks.any (fun t => decide (t.dst = p) && isOkRes (convert_fits_to_xisf ext t.src t.dst cc).2)

/-! ### Concrete fixtures used by the witnesses -/

/-- A two-dimensional (grayscale) source image. -/
def img2D : Image := ⟨[2, 3], [10, 20, 30, 40, 50, 60]⟩

/-- A three-dimensional source image. -/
def img3D : Image := ⟨[2, 3, 1], [10, 20, 30, 40, 50, 60]⟩

/-- A concrete codec configuration. -/
def ccW : CodecConfig := ⟨"lz4hc", true, 6, "fits_to_xisf_batch.py"⟩

/-- Collaborators for which every write succeeds. -/
def extOkW : Extern := ⟨fun _ => .ok img2D [], fun _ _ _ _ => .ok 42 "lz4hc"⟩

/-- Collaborators whose encoder rejects the metadata shape but accepts the
no-metadata overload. -/
def extFallW : Extern :=
  ⟨fun _ => .ok img2D [],
   fun _ md _ _ =>
     match md with
     | some _ => .err "tuple index out of range"
     | none => .ok 42 "lz4hc"⟩

/-- Collaborators that read a three-dimensional image and always write. -/
def ext3DW : Extern := ⟨fun _ => .ok img3D [], fun _ _ _ _ => .ok 42 "lz4hc"⟩

/-- A directory entry with one convertible and one pass-through file. -/
def dW : DirEntry := ⟨[], ["a.fits", "b.txt"]⟩

/-- A one-directory walk. -/
def walkW : List DirEntry := [dW]

/-- A configuration with retirement disabled. -/
def cfgA : Config := ⟨["in"], ["out"], true, -1⟩

/-- The task the walk above enqueues. -/
def taskA : Task := ⟨["in", "a.fits"], ["out", "a.xisf"]⟩

/-- A retirement environment: mtime ten days before now, removal succeeds. -/
def envW : RetireEnv := ⟨864000, fun _ => some 0, fun _ => true⟩

theorem stepFile_eq (cfg : Config) (ex : Path → Bool) (d : DirEntry)
    (acc : List EnumEvent × List Task) (fn : String) :
    stepFile cfg ex d acc fn =
      (acc.1 ++ [fileEvent cfg ex d fn], acc.2 ++ (fileTask cfg ex d fn).toList) := by
  unfold stepFile fileEvent fileTask
  by_cases h : endsWithFits fn = true <;>
    by_cases hx : ex (dstOf cfg d fn) = true <;>
    by_cases hs : cfg.skipExisting = true <;>
    simp [h, hx, hs]

theorem foldl_stepFile_eq (cfg : Config) (ex : Path → Bool) (d : DirEntry) :
    ∀ (files : List String) (acc : List EnumEvent × List Task),
      files.foldl (stepFile cfg ex d) acc =
        (acc.1 ++ files.map (fileEvent cfg ex d),
         acc.2 ++ files.filterMap (fileTask cfg ex d)) := by
  intro files
  induction files with
  | nil => intro acc; simp
  | cons fn rest ih =>
    intro acc
    simp only [List.foldl_cons, ih, stepFile_eq, List.map_cons, List.filterMap_cons]
    cases h : fileTask cfg ex d fn <;> simp [h]

theorem stepDir_eq (cfg : Config) (ex : Path → Bool)
    (acc : List EnumEvent × List Task) (d : DirEntry) :
    stepDir cfg ex acc d = (acc.1 ++ dirEvents cfg ex d, acc.2 ++ dirTasks cfg ex d) := by
  unfold stepDir dirEvents dirTasks
  rw [foldl_stepFile_eq]
  simp

theorem foldl_stepDir_eq (cfg : Config) (ex : Path → Bool) :
    ∀ (walk : List DirEntry) (acc : List EnumEvent × List Task),
      walk.foldl (stepDir cfg ex) acc =
        (acc.1 ++ walk.flatMap (dirEvents cfg ex), acc.2 ++ walk.flatMap (dirTasks cfg ex)) := by
  intro walk
  induction walk with
  | nil => intro acc; simp
  | cons d rest ih =>
    intro acc
    simp only [List.foldl_cons, ih, stepDir_eq, List.flatMap_cons]
    simp

theorem enumeratePhase_eq (cfg : Config) (ex : Path → Bool) (walk : List DirEntry) :
    enumeratePhase cfg ex walk =
      (walk.flatMap (dirEvents cfg ex), walk.flatMap (dirTasks cfg ex)) := by
  unfold enumeratePhase
  rw [foldl_stepDir_eq]
  simp

/-! ### Dict lemmas for the metadata record -/

/-- C1: for a successfully converted task the retirement decision follows
the configured threshold exactly: with deleteOlderThanDays = -1 nothing
but the success report happens, so the source is never deleted; with 0
the removal of the source is invoked unconditionally; with N greater than
0 the modification time read at decision time gives the age in days
(now - mtime) / 86400 and removal is invoked if and only if that age is
at least N, a too-recent notice being emitted otherwise. -/
theorem retirement_threshold (env : RetireEnv) (days : Int) (t : Task)
    (n : Nat) (c : String) :
    (days = -1 →
      handleOutcome env days t (.ok n c) = [.success t.src t.dst n c]) ∧
    (days = 0 →
      handleOutcome env days t (.ok n c) =
        .success t.src t.dst n c :: .removeAttempt t.src ::
          (if env.removeOk t.src then [.deleted t.src] else [.deleteWarn t.src])) ∧
    (∀ mt : ℚ, 0 < days → env.getmtime t.src = some mt →
      ((SchedEvent.removeAttempt t.src ∈ handleOutcome env days t (.ok n c) ↔
          (env.now - mt) / (24 * 3600) ≥ (days : ℚ)) ∧
       (SchedEvent.tooRecent t.src ∈ handleOutcome env days t (.ok n c) ↔
          ¬((env.now - mt) / (24 * 3600) ≥ (days : ℚ))))) := by
  refine ⟨fun h1 => ?_, fun h0 => ?_, fun mt hpos hmt => ?_⟩
  · simp [handleOutcome, h1]
  · simp [handleOutcome, h0]
  · have hne1 : days ≠ -1 := by omega
    have hne0 : days ≠ 0 := by omega
    simp only [handleOutcome, if_neg hne1, if_neg hne0, hmt]
    by_cases hage : (env.now - mt) / (24 * 3600) ≥ (days : ℚ)
    · constructor
      · simp [hage]
      · constructor
        · intro hmem
          by_cases hrm : env.removeOk t.src = true <;>
            simp [hage, hrm] at hmem
        · intro hc
          exact absurd hage hc
    · have hposb : days > 0 := hpos
      constructor
      · constructor
        · intro hmem
          simp [hage, hposb] at hmem
        · intro hc
          exact absurd hc hage
      · simp [hage, hposb]

theorem retirement_threshold_witness :
    (handleOutcome ⟨864000, fun _ => some 0, fun _ => true⟩ (-1)
        ⟨["in", "a.fits"], ["out", "a.xisf"]⟩ (.ok 9 "zlib") =
      [.success ["in", "a.fits"] ["out", "a.xisf"] 9 "zlib"]) ∧
    (SchedEvent.removeAttempt ["in", "a.fits"] ∈
      handleOutcome ⟨864000, fun _ => some 0, fun _ => true⟩ 0
        ⟨["in", "a.fits"], ["out", "a.xisf"]⟩ (.ok 9 "zlib")) ∧
    (SchedEvent.removeAttempt ["in", "a.fits"] ∈
      handleOutcome ⟨864000, fun _ => some 0, fun _ => true⟩ 5
        ⟨["in", "a.fits"], ["out", "a.xisf"]⟩ (.ok 9 "zlib") ↔
      ((864000 : ℚ) - 0) / (24 * 3600) ≥ ((5 : Int) : ℚ)) := by
  refine ⟨(retirement_threshold _ (-1) _ 9 "zlib").1 rfl, ?_, ?_⟩
  · rw [(retirement_threshold ⟨864000, fun _ => some 0, fun _ => true⟩ 0
      ⟨["in", "a.fits"], ["out", "a.xisf"]⟩ 9 "zlib").2.1 rfl]
    simp
  · exact ((retirement_threshold ⟨864000, fun _ => some 0, fun _ => true⟩ 5
      ⟨["in", "a.fits"], ["out", "a.xisf"]⟩ 9 "zlib").2.2 0 (by decide) rfl).1

/-- C3: a failed metadata-attached write is retried exactly once, without
metadata, precisely when the failure is the metadata-structure
incompatibility the script recognises (the encoder error message carrying
the tuple-index substring); any other write failure is not retried and is
surfaced as the failure outcome of the task. -/
theorem fallback_retry_iff_metadata_shape (ext : Extern) (fp xp : Path)
    (cc : CodecConfig) (img : Image) (hdr : List Card)
    (hread : ext.read fp = .ok img hdr) :
    (∀ msg, ext.write xp (some (buildMetadata hdr)) (addChannelAxis img) cc = .err msg →
       strContains msg tupleIndexMsg = true →
       (convert_fits_to_xisf ext fp xp cc).1 =
         [.attempt (some (buildMetadata hdr)) (addChannelAxis img),
          .attempt none (addChannelAxis img)]) ∧
    (∀ msg, ext.write xp (some (buildMetadata hdr)) (addChannelAxis img) cc = .err msg →
       strContains msg tupleIndexMsg = false →
       (convert_fits_to_xisf ext fp xp cc).1 =
         [.attempt (some (buildMetadata hdr)) (addChannelAxis img)] ∧
       (convert_fits_to_xisf ext fp xp cc).2 = .raised msg) ∧
    (∀ n c, ext.write xp (some (buildMetadata hdr)) (addChannelAxis img) cc = .ok n c →
       (convert_fits_to_xisf ext fp xp cc).1 =
         [.attempt (some (buildMetadata hdr)) (addChannelAxis img)]) := by
  refine ⟨fun msg hw hsub => ?_, fun msg hw hsub => ?_, fun n c hw => ?_⟩
  · simp [convert_fits_to_xisf, hread, hw, hsub]
    cases hfb : ext.write xp none (addChannelAxis img) cc <;> simp
  · simp [convert_fits_to_xisf, hread, hw, hsub]
  · simp [convert_fits_to_xisf, hread, hw]

theorem fallback_retry_iff_metadata_shape_witness :
    (convert_fits_to_xisf extFallW ["in", "a.fits"] ["out", "a.xisf"] ccW).1 =
      [.attempt (some (buildMetadata [])) (addChannelAxis img2D),
       .attempt none (addChannelAxis img2D)] :=
  (fallback_retry_iff_metadata_shape extFallW ["in", "a.fits"] ["out", "a.xisf"]
    ccW img2D [] rfl).1 "tuple index out of range" rfl (by decide)

/-- C6: every write attempt the worker makes carries the normalized pixel
data: a two-dimensional source is written with a trailing unit axis
appended, three-dimensional with pixel values unchanged, while an already
three-dimensional source is written with its shape untouched. -/
theorem dimensionality_normalization (ext : Extern) (fp xp : Path)
    (cc : CodecConfig) (img : Image) (hdr : List Card)
    (hread : ext.read fp = .ok img hdr) :
    (img.shape.length = 2 →
       ∀ md d, WEvent.attempt md d ∈ (convert_fits_to_xisf ext fp xp cc).1 →
         d.shape = img.shape ++ [1] ∧ d.pixels = img.pixels ∧ d.shape.length = 3) ∧
    (img.shape.length = 3 →
       ∀ md d, WEvent.attempt md d ∈ (convert_fits_to_xisf ext fp xp cc).1 → d = img) := by
  have hmem : ∀ md d, WEvent.attempt md d ∈ (convert_fits_to_xisf ext fp xp cc).1 →
      d = addChannelAxis img := by
    intro md d hm
    simp only [convert_fits_to_xisf, hread] at hm
    cases hw : ext.write xp (some (buildMetadata hdr)) (addChannelAxis img) cc with
    | ok n c =>
      rw [hw] at hm
      simp at hm
      exact hm.2
    | err msg =>
      rw [hw] at hm
      by_cases hsub : strContains msg tupleIndexMsg = true
      · cases hfb : ext.write xp none (addChannelAxis img) cc <;>
          rw [hfb] at hm <;> simp [hsub] at hm <;>
          rcases hm with ⟨_, h2⟩ | ⟨_, h2⟩ <;> exact h2
      · simp [hsub] at hm
        exact hm.2
  constructor
  · intro h2 md d hm
    have hd := hmem md d hm
    rw [hd]
    unfold addChannelAxis
    rw [if_pos h2]
    refine ⟨rfl, rfl, ?_⟩
    simp [h2]
  · intro h3 md d hm
    have hd := hmem md d hm
    rw [hd]
    unfold addChannelAxis
    rw [if_neg (by omega)]

theorem dimensionality_normalization_witness :
    (addChannelAxis img2D).shape = img2D.shape ++ [1] ∧
    (addChannelAxis img2D).pixels = img2D.pixels ∧
    (addChannelAxis img2D).shape.length = 3 :=
  (dimensionality_normalization extOkW ["in", "a.fits"] ["out", "a.xisf"]
    ccW img2D [] rfl).1 rfl (some (buildMetadata [])) (addChannelAxis img2D)
    (by decide)

/-! ### Scheduler lemmas -/

theorem handleOutcome_filter_report (env : RetireEnv) (days : Int) (t : Task)
    (r : ConvertResult) :
    (handleOutcome env days t r).filter isReport = [reportOf t r] := by
  cases r with
  | raised m => simp [handleOutcome, reportOf, isReport]
  | ok n c =>
    by_cases h1 : days = -1
    · simp [handleOutcome, reportOf, h1, isReport]
    · by_cases h0 : days = 0
      · by_cases hrm : env.removeOk t.src = true <;>
          simp [handleOutcome, reportOf, h1, h0, hrm, isReport]
      · cases hmt : env.getmtime t.src with
        | none =>
          by_cases hdp : days > 0 <;>
            simp [handleOutcome, reportOf, h1, h0, hmt, hdp, isReport]
        | some mt =>
          by_cases hage : (env.now - mt) / (24 * 3600) ≥ (days : ℚ)
          · by_cases hrm : env.removeOk t.src = true <;>
              simp [handleOutcome, reportOf, h1, h0, hmt, hage, hrm, isReport]
          · by_cases hdp : days > 0 <;>
              simp [handleOutcome, reportOf, h1, h0, hmt, hage, hdp, isReport]

theorem removeAttempt_mem_handleOutcome (env : RetireEnv) (days : Int) (t : Task)
    (r : ConvertResult) (s : Path)
    (hm : SchedEvent.removeAttempt s ∈ handleOutcome env days t r) :
    s = t.src ∧ ∃ n c, r = .ok n c := by
  cases r with
  | raised m => simp [handleOutcome] at hm
  | ok n c =>
    refine ⟨?_, n, c, rfl⟩
    by_cases h1 : days = -1
    · simp [handleOutcome, h1] at hm
    · by_cases h0 : days = 0
      · by_cases hrm : env.removeOk t.src = true <;>
          simp [handleOutcome, h1, h0, hrm] at hm <;> exact hm
      · cases hmt : env.getmtime t.src with
        | none =>
          by_cases hdp : days > 0 <;>
            simp [handleOutcome, h1, h0, hmt, hdp] at hm
        | some mt =>
          by_cases hage : (env.now - mt) / (24 * 3600) ≥ (days : ℚ)
          · by_cases hrm : env.removeOk t.src = true <;>
              simp [handleOutcome, h1, h0, hmt, hage, hrm] at hm <;> exact hm
          · by_cases hdp : days > 0 <;>
              simp [handleOutcome, h1, h0, hmt, hage, hdp] at hm

theorem runSched_filter_report (env : RetireEnv) (days : Int) :
    ∀ l : List (Task × ConvertResult),
      (runSched env days l).filter isReport = l.map (fun p => reportOf p.1 p.2) := by
  intro l
  induction l with
  | nil => rfl
  | cons p rest ih =>
    cases p with
    | mk t r =>
      simp only [runSched, List.filter_append, handleOutcome_filter_report, ih,
        List.map_cons]
      rfl

theorem mem_runSched (env : RetireEnv) (days : Int) :
    ∀ (l : List (Task × ConvertResult)) (e : SchedEvent), e ∈ runSched env days l →
      ∃ p ∈ l, e ∈ handleOutcome env days p.1 p.2 := by
  intro l
  induction l with
  | nil => intro e he; simp [runSched] at he
  | cons p rest ih =>
    intro e he
    cases p with
    | mk t r =>
      rw [runSched, List.mem_append] at he
      rcases he with he | he
      · exact ⟨(t, r), List.mem_cons_self _ _, he⟩
      · obtain ⟨q, hq, hqe⟩ := ih e he
        exact ⟨q, List.mem_cons_of_mem _ hq, hqe⟩

/-- C4: the worker always hands the scheduler an outcome value, every
per-task error is caught at the result-loop boundary and reported, and
the run processes every task: the outcome reports of a run are exactly
one report per completed task, success or failure alike. -/
theorem every_task_reported (cfg : Config) (cc : CodecConfig) (ext : Extern)
    (env : RetireEnv) (ex : Path → Bool) (walk : List DirEntry)
    (order : List Task) :
    ((runPipeline cfg cc ext env ex walk order).filterMap schedPart).filter isReport =
      order.map (fun t => reportOf t (convert_fits_to_xisf ext t.src t.dst cc).2) := by
  unfold runPipeline
  rw [List.filterMap_append, List.filterMap_map, List.filterMap_map]
  have h1 : List.filterMap (schedPart ∘ RunEvent.enumEv) (enumeratePhase cfg ex walk).1
      = [] := by
    simp [List.filterMap_eq_nil_iff, schedPart, Function.comp]
  have h2 : (schedPart ∘ RunEvent.schedEv) = some := rfl
  rw [h1, h2, List.filterMap_some, List.nil_append, runSched_filter_report]
  simp

/-- C2: the retirement policy runs only on confirmed successes: whenever
the run attempts to remove a source file, some task of the run with that
source has a successful conversion outcome; a task whose conversion fails
never triggers removal of its source. -/
theorem deletion_only_after_success (cfg : Config) (cc : CodecConfig) (ext : Extern)
    (env : RetireEnv) (ex : Path → Bool) (walk : List DirEntry) (order : List Task)
    (s : Path)
    (hm : RunEvent.schedEv (.removeAttempt s) ∈ runPipeline cfg cc ext env ex walk order) :
    ∃ t ∈ order, t.src = s ∧
      ∃ n c, (convert_fits_to_xisf ext t.src t.dst cc).2 = .ok n c := by
  unfold runPipeline at hm
  rw [List.mem_append] at hm
  rcases hm with hm | hm
  · rw [List.mem_map] at hm
    obtain ⟨e, _, heq⟩ := hm
    cases heq
  · rw [List.mem_map] at hm
    obtain ⟨e, he, heq⟩ := hm
    cases heq
    obtain ⟨p, hp, hpe⟩ := mem_runSched env cfg.deleteOlderThanDays _ _ he
    rw [List.mem_map] at hp
    obtain ⟨t, ht, hpt⟩ := hp
    subst hpt
    obtain ⟨hsrc, n, c, hok⟩ := removeAttempt_mem_handleOutcome _ _ _ _ _ hpe
    exact ⟨t, ht, hsrc.symm, n, c, hok⟩

theorem deletion_only_after_success_witness :
    ∃ t ∈ [(⟨["in", "a.fits"], ["out", "a.xisf"]⟩ : Task)],
      t.src = ["in", "a.fits"] ∧
      ∃ n c, (convert_fits_to_xisf extOkW t.src t.dst ccW).2 = .ok n c :=
  deletion_only_after_success ⟨["in"], ["out"], true, 0⟩ ccW extOkW envW
    (fun _ => false) walkW [⟨["in", "a.fits"], ["out", "a.xisf"]⟩]
    ["in", "a.fits"] (by decide)

/-- C7: for every directory the walk visits, the enumeration creates its
mirrored destination directory before processing any file in it: the event
trace splits as earlier events, then the mkdir of the mirrored directory,
then the per-file events of that directory, then later events. -/
theorem mirror_before_files (cfg : Config) (ex : Path → Bool) (walk : List DirEntry)
    (d : DirEntry) (hd : d ∈ walk) :
    ∃ pre suf, (enumeratePhase cfg ex walk).1 =
      pre ++ EnumEvent.mkdir (destRootOf cfg d) ::
        (d.files.map (fileEvent cfg ex d) ++ suf) := by
  obtain ⟨w1, w2, hw⟩ := List.append_of_mem hd
  subst hw
  refine ⟨w1.flatMap (dirEvents cfg ex), w2.flatMap (dirEvents cfg ex), ?_⟩
  have he : (enumeratePhase cfg ex (w1 ++ d :: w2)).1 =
      (w1 ++ d :: w2).flatMap (dirEvents cfg ex) := by
    rw [enumeratePhase_eq]
  rw [he, List.flatMap_append, List.flatMap_cons]
  simp [dirEvents]

theorem mirror_before_files_witness :
    ∃ pre suf, (enumeratePhase cfgA (fun _ => false) walkW).1 =
      pre ++ EnumEvent.mkdir (destRootOf cfgA dW) ::
        (dW.files.map (fileEvent cfgA (fun _ => false) dW) ++ suf) :=
  mirror_before_files cfgA (fun _ => false) walkW dW (by decide)

/-- Helper for C9: in a trace that is enumeration events followed by
scheduler events, any copy event sits strictly before any scheduler event. -/
theorem copy_lt_sched_in_append (A : List EnumEvent) (B : List SchedEvent)
    (i j : Nat)
    (hi : i < (A.map RunEvent.enumEv ++ B.map RunEvent.schedEv).length)
    (hj : j < (A.map RunEvent.enumEv ++ B.map RunEvent.schedEv).length)
    (hci : isCopyEv ((A.map RunEvent.enumEv ++ B.map RunEvent.schedEv)[i]) = true)
    (hsj : isSchedRunEv ((A.map RunEvent.enumEv ++ B.map RunEvent.schedEv)[j]) = true) :
    i < j := by
  have hAi : i < (A.map RunEvent.enumEv).length := by
    by_contra hge
    push_neg at hge
    rw [List.getElem_append_right hge] at hci
    rw [List.getElem_map] at hci
    simp [isCopyEv] at hci
  have hAj : (A.map RunEvent.enumEv).length ≤ j := by
    by_contra hlt
    push_neg at hlt
    rw [List.getElem_append_left hlt] at hsj
    rw [List.getElem_map] at hsj
    simp [isSchedRunEv] at hsj
  omega

/-- C9: every file not matching the convertible extension is copied to its
mirrored destination during the enumeration phase, and in the run trace
every such copy happens strictly before any scheduler-phase event, hence
before any conversion task is dispatched. -/
theorem passthrough_copied_before_dispatch (cfg : Config) (cc : CodecConfig)
    (ext : Extern) (env : RetireEnv) (ex : Path → Bool) (walk : List DirEntry)
    (order : List Task) :
    (∀ d ∈ walk, ∀ fn ∈ d.files, endsWithFits fn = false →
       RunEvent.enumEv (.copy (srcOf cfg d fn) (destRootOf cfg d ++ [fn]))
         ∈ runPipeline cfg cc ext env ex walk order) ∧
    (∀ (i j : Nat) (hi : i < (runPipeline cfg cc ext env ex walk order).length)
       (hj : j < (runPipeline cfg cc ext env ex walk order).length),
       isCopyEv ((runPipeline cfg cc ext env ex walk order)[i]) = true →
       isSchedRunEv ((runPipeline cfg cc ext env ex walk order)[j]) = true →
       i < j) := by
  constructor
  · intro d hd fn hfn hnf
    unfold runPipeline
    rw [List.mem_append]
    left
    rw [List.mem_map]
    refine ⟨.copy (srcOf cfg d fn) (destRootOf cfg d ++ [fn]), ?_, rfl⟩
    have he : (enumeratePhase cfg ex walk).1 = walk.flatMap (dirEvents cfg ex) := by
      rw [enumeratePhase_eq]
    rw [he, List.mem_flatMap]
    refine ⟨d, hd, ?_⟩
    unfold dirEvents
    rw [List.mem_cons]
    right
    rw [List.mem_map]
    exact ⟨fn, hfn, by simp [fileEvent, hnf]⟩
  · intro i j hi hj hci hsj
    exact copy_lt_sched_in_append (enumeratePhase cfg ex walk).1
      (runSched env cfg.deleteOlderThanDays
        (order.map (fun t => (t, (convert_fits_to_xisf ext t.src t.dst cc).2))))
      i j hi hj hci hsj

theorem passthrough_copied_before_dispatch_witness :
    (RunEvent.enumEv (.copy (srcOf cfgA dW "b.txt") (destRootOf cfgA dW ++ ["b.txt"]))
       ∈ runPipeline cfgA ccW extOkW envW (fun _ => false) walkW [taskA]) ∧
    (2 : Nat) < 3 :=
  ⟨(passthrough_copied_before_dispatch cfgA ccW extOkW envW (fun _ => false)
      walkW [taskA]).1 dW (by decide) "b.txt" (by decide) (by decide),
   (passthrough_copied_before_dispatch cfgA ccW extOkW envW (fun _ => false)
      walkW [taskA]).2 2 3 (by decide) (by decide) (by decide) (by decide)⟩

/-! ### Task-membership lemmas -/

theorem mem_tasks_iff (cfg : Config) (ex : Path → Bool) (walk : List DirEntry)
    (t : Task) :
    t ∈ (enumeratePhase cfg ex walk).2 ↔
      ∃ d ∈ walk, ∃ fn ∈ d.files, fileTask cfg ex d fn = some t := by
  have he : (enumeratePhase cfg ex walk).2 = walk.flatMap (dirTasks cfg ex) := by
    rw [enumeratePhase_eq]
  rw [he, List.mem_flatMap]
  simp [dirTasks, List.mem_filterMap]

theorem fileTask_eq_some (cfg : Config) (ex : Path → Bool) (d : DirEntry)
    (fn : String) (t : Task) :
    fileTask cfg ex d fn = some t ↔
      endsWithFits fn = true ∧ (ex (dstOf cfg d fn) && cfg.skipExisting) = false ∧
        t = ⟨srcOf cfg d fn, dstOf cfg d fn⟩ := by
  unfold fileTask
  by_cases h : (endsWithFits fn && !(ex (dstOf cfg d fn) && cfg.skipExisting)) = true
  · rw [if_pos h]
    rw [Bool.and_eq_true, Bool.not_eq_true'] at h
    simp [h.1, h.2, eq_comm]
  · rw [if_neg h]
    rw [Bool.and_eq_true, Bool.not_eq_true'] at h
    push_neg at h
    constructor
    · intro hc; cases hc
    · rintro ⟨hc1, hc2, _⟩
      exact absurd hc2 (h hc1)

theorem no_tasks_of_all_exist (cfg : Config) (ex : Path → Bool)
    (walk : List DirEntry) (hskip : cfg.skipExisting = true)
    (hall : ∀ d ∈ walk, ∀ fn ∈ d.files, endsWithFits fn = true →
      ex (dstOf cfg d fn) = true) :
    (enumeratePhase cfg ex walk).2 = [] := by
  rw [List.eq_nil_iff_forall_not_mem]
  intro t ht
  obtain ⟨d, hd, fn, hfn, hft⟩ := (mem_tasks_iff cfg ex walk t).1 ht
  rw [fileTask_eq_some] at hft
  obtain ⟨h1, h2, _⟩ := hft
  rw [hall d hd fn hfn h1, hskip] at h2
  simp at h2

/-- C5: with skipExisting enabled, a convertible file whose derived
destination already exists is not enqueued (a skip notice is emitted and
no task carries its source), and a second enumeration run over the same
walk, against the destinations produced by a fully successful first run,
enqueues no task at all. -/
theorem skip_existing_idempotence (cfg : Config) (ex : Path → Bool)
    (walk : List DirEntry) (cc : CodecConfig) (ext : Extern)
    (hskip : cfg.skipExisting = true) :
    (∀ d ∈ walk, ∀ fn ∈ d.files, endsWithFits fn = true →
       ex (dstOf cfg d fn) = true →
       (EnumEvent.skip (srcOf cfg d fn) ∈ (enumeratePhase cfg ex walk).1 ∧
        ∀ t ∈ (enumeratePhase cfg ex walk).2, t.src ≠ srcOf cfg d fn)) ∧
    ((∀ t ∈ (enumeratePhase cfg ex walk).2,
        isOkRes (convert_fits_to_xisf ext t.src t.dst cc).2 = true) →
      (enumeratePhase cfg
        (afterRunExists ex cc ext (enumeratePhase cfg ex walk).2) walk).2 = []) := by
  constructor
  · intro d hd fn hfn hconv hex
    constructor
    · have he : (enumeratePhase cfg ex walk).1 = walk.flatMap (dirEvents cfg ex) := by
        rw [enumeratePhase_eq]
      rw [he, List.mem_flatMap]
      refine ⟨d, hd, ?_⟩
      unfold dirEvents
      rw [List.mem_cons]
      right
      rw [List.mem_map]
      exact ⟨fn, hfn, by simp [fileEvent, hconv, hex, hskip]⟩
    · intro t ht heq
      obtain ⟨d', hd', fn', hfn', hft⟩ := (mem_tasks_iff cfg ex walk t).1 ht
      rw [fileTask_eq_some] at hft
      obtain ⟨h1, h2, h3⟩ := hft
      have hsrc : srcOf cfg d' fn' = srcOf cfg d fn := by rw [← heq, h3]
      unfold srcOf at hsrc
      rw [List.append_assoc, List.append_assoc] at hsrc
      have h4 := List.append_cancel_left hsrc
      have h5 := List.append_inj' h4 rfl
      obtain ⟨hrel, hfn2⟩ := h5
      have hfneq : fn' = fn := by simpa using hfn2
      have hdst : dstOf cfg d' fn' = dstOf cfg d fn := by
        unfold dstOf destRootOf
        rw [hrel, hfneq]
      rw [hdst, hex, hskip] at h2
      simp at h2
  · intro hsucc
    apply no_tasks_of_all_exist cfg _ walk hskip
    intro d hd fn hfn hconv
    unfold afterRunExists
    by_cases hex : ex (dstOf cfg d fn) = true
    · simp [hex]
    · have hft : fileTask cfg ex d fn = some ⟨srcOf cfg d fn, dstOf cfg d fn⟩ := by
        rw [fileTask_eq_some]
        refine ⟨hconv, ?_, rfl⟩
        rw [Bool.not_eq_true] at hex
        simp [hex]
      have ht : (⟨srcOf cfg d fn, dstOf cfg d fn⟩ : Task) ∈ (enumeratePhase cfg ex walk).2 :=
        (mem_tasks_iff cfg ex walk _).2 ⟨d, hd, fn, hfn, hft⟩
      have hok := hsucc _ ht
      rw [Bool.or_eq_true]
      right
      rw [List.any_eq_true]
      exact ⟨⟨srcOf cfg d fn, dstOf cfg d fn⟩, ht, by simp [hok]⟩

theorem skip_existing_idempotence_witness :
    (enumeratePhase cfgA
      (afterRunExists (fun _ => false) ccW extOkW
        (enumeratePhase cfgA (fun _ => false) walkW).2) walkW).2 = [] :=
  (skip_existing_idempotence cfgA (fun _ => false) walkW ccW extOkW rfl).2 (by decide)

/-- C8 counterexample: at a directory holding both a.fits and a.FITS, one
enumeration run produces two distinct tasks whose destination paths are
equal, refuting the claimed injectivity of the source-to-destination
mapping. -/
theorem dst_collision_counterexample :
    (enumeratePhase ⟨["in"], ["out"], true, -1⟩ (fun _ => false)
        [⟨[], ["a.fits", "a.FITS"]⟩]).2 =
      [⟨["in", "a.fits"], ["out", "a.xisf"]⟩, ⟨["in", "a.FITS"], ["out", "a.xisf"]⟩] ∧
    (⟨["in", "a.fits"], ["out", "a.xisf"]⟩ : Task) ≠ ⟨["in", "a.FITS"], ["out", "a.xisf"]⟩ ∧
    Task.dst ⟨["in", "a.fits"], ["out", "a.xisf"]⟩ =
      Task.dst ⟨["in", "a.FITS"], ["out", "a.xisf"]⟩ :=
  ⟨by decide, by decide, rfl⟩

/-- C8 amended: two tasks of one enumeration run target the same
destination only when their source files lie in the same directory and
their filenames have the same extension-stripped stem (for instance when
they differ only in the casing of the convertible extension); tasks from
different directories, or with different stems, never collide. -/
theorem dst_collision_only_same_stem (cfg : Config) (ex : Path → Bool)
    (walk : List DirEntry) (t1 t2 : Task)
    (h1 : t1 ∈ (enumeratePhase cfg ex walk).2)
    (h2 : t2 ∈ (enumeratePhase cfg ex walk).2)
    (hdst : t1.dst = t2.dst) :
    ∃ rel fn1 fn2,
      t1.src = cfg.inputDir ++ rel ++ [fn1] ∧
      t2.src = cfg.inputDir ++ rel ++ [fn2] ∧
      stemOf fn1 = stemOf fn2 ∧
      endsWithFits fn1 = true ∧ endsWithFits fn2 = true := by
  obtain ⟨d1, hd1, fn1, hfn1, hft1⟩ := (mem_tasks_iff cfg ex walk t1).1 h1
  obtain ⟨d2, hd2, fn2, hfn2, hft2⟩ := (mem_tasks_iff cfg ex walk t2).1 h2
  rw [fileTask_eq_some] at hft1 hft2
  obtain ⟨hc1, _, he1⟩ := hft1
  obtain ⟨hc2, _, he2⟩ := hft2
  subst he1
  subst he2
  have hdst' : dstOf cfg d1 fn1 = dstOf cfg d2 fn2 := hdst
  unfold dstOf destRootOf at hdst'
  rw [List.append_assoc, List.append_assoc] at hdst'
  have h3 := List.append_cancel_left hdst'
  have h4 := List.append_inj' h3 rfl
  obtain ⟨hrel, hx⟩ := h4
  have hx' : stemOf fn1 ++ ".xisf" = stemOf fn2 ++ ".xisf" := by simpa using hx
  have hstem : stemOf fn1 = stemOf fn2 := by
    have hd := congrArg String.data hx'
    rw [String.data_append, String.data_append] at hd
    exact String.ext (List.append_cancel_right hd)
  refine ⟨d1.rel, fn1, fn2, rfl, ?_, hstem, hc1, hc2⟩
  show srcOf cfg d2 fn2 = cfg.inputDir ++ d1.rel ++ [fn2]
  unfold srcOf
  rw [hrel]

theorem dst_collision_only_same_stem_witness :
    ∃ rel fn1 fn2,
      Task.src ⟨["in", "a.fits"], ["out", "a.xisf"]⟩ = ["in"] ++ rel ++ [fn1] ∧
      Task.src ⟨["in", "a.FITS"], ["out", "a.xisf"]⟩ = ["in"] ++ rel ++ [fn2] ∧
      stemOf fn1 = stemOf fn2 ∧
      endsWithFits fn1 = true ∧ endsWithFits fn2 = true :=
  dst_collision_only_same_stem ⟨["in"], ["out"], true, -1⟩ (fun _ => false)
    [⟨[], ["a.fits", "a.FITS"]⟩] ⟨["in", "a.fits"], ["out", "a.xisf"]⟩
    ⟨["in", "a.FITS"], ["out", "a.xisf"]⟩ (by decide) (by decide) rfl

end FitsToXisf
